import Mathlib

/-!
Verification of the Threads of Tradition marketplace.

The development has three parts:
* a model of the Caption & Price Recommendation Engine (the backend module
  `ai_services.py` is not part of the checked-in sources, so the engine is
  modelled from the specification's algorithm, constants and contracts);
* a model of the frontend authentication helper `frontend/js/auth.js`,
  including a `localStorage` model and a verified JSON
  stringify/parse pair standing for the browser's `JSON` built-ins;
* a model of the frontend request helper `frontend/js/api.js`, in
  particular `ProductAPI.list` and its `URLSearchParams` query building.
-/

namespace ThreadsOfTradition

/-- Modelled from the spec: a request's `time_value` field is "positive
numeric duration"; invalid requests may carry a non-numeric value
(the spec's `recommend_price(m, "abc", hours)` test).  Numeric values are
modelled as rationals. -/
inductive TimeInput where
  | num (value : ℚ)
  | nonNumeric (raw : String)
deriving DecidableEq

/-- Modelled from the spec: the error taxonomy of §7
(`InvalidInput`, `UnknownMaterial`). -/
inductive EngineError where
  | InvalidInput
  | UnknownMaterial
deriving DecidableEq

/-- Modelled from the spec: `PriceResult` with integer currency bounds. -/
structure PriceResult where
  price_low : ℤ
  price_high : ℤ
deriving DecidableEq

/-- Modelled from the spec: the enumerated material set
{cotton, silk, wool, jute, linen, khadi, wood, clay, metal}. -/
def knownMaterials : List String :=
  ["cotton", "silk", "wool", "jute", "linen", "khadi", "wood", "clay", "metal"]

/-- Modelled from the spec: the floor default base price (₹200) used for
unknown materials. -/
def floor_default_base : ℤ := 200

/-- Modelled from the spec: the fixed material → base-price table, range
₹200–₹1200 across materials, silk at the top (₹1200), unknown materials
falling back to the floor default. -/
def base_price (material : String) : ℤ :=
  if material = "cotton" then 300
  else if material = "silk" then 1200
  else if material = "wool" then 800
  else if material = "jute" then 250
  else if material = "linen" then 600
  else if material = "khadi" then 500
  else if material = "wood" then 400
  else if material = "clay" then 350
  else if material = "metal" then 700
  else floor_default_base

/-- Modelled from the spec: fixed hourly labor rate, ₹50/hour. -/
def hourly_rate : ℚ := 50

/-- Modelled from the spec: fixed handmade premium multiplier ×1.3. -/
def handmade_premium : ℚ := 13 / 10

/-- Modelled from the spec: quality-bonus threshold, 20 hours. -/
def quality_threshold : ℚ := 20

/-- Modelled from the spec: quality multiplier ×1.15 applied beyond the
threshold. -/
def quality_multiplier : ℚ := 23 / 20

/-- Modelled from the spec: discount factor 0.85 for `price_low`. -/
def discount_factor : ℚ := 17 / 20

/-- Modelled from the spec: markup factor 1.15 for `price_high`. -/
def markup_factor : ℚ := 23 / 20

/-- Modelled from the spec: normalization to an hour count with an 8-hour
nominal workday (`hours = time_unit == days ? time_value * 8 : time_value`). -/
def normalize_hours (time_value : ℚ) (time_unit : String) : ℚ :=
  if time_unit = "days" then time_value * 8 else time_value

/-- Modelled from the spec: steps 3–6 of the pricing algorithm: labor cost,
subtotal, handmade premium, and the step-function quality bonus. -/
def mid_price (material : String) (hours : ℚ) : ℚ :=
  let labor_cost := hours * hourly_rate
  let subtotal := (base_price material : ℚ) + labor_cost
  let mid := subtotal * handmade_premium
  if hours > quality_threshold then mid * quality_multiplier else mid

/-- Modelled from the spec: step 7 of the pricing algorithm: both bounds
rounded to the nearest integer currency unit, `price_low` clamped so it is
never below the material's base price. -/
def price_band (material : String) (hours : ℚ) : PriceResult :=
  let mid := mid_price material hours
  { price_low := max (round (mid * discount_factor)) (base_price material)
    price_high := round (mid * markup_factor) }

/-- Modelled from the spec: accepted time units {hours, days}. -/
def valid_time_unit (time_unit : String) : Bool :=
  time_unit = "hours" || time_unit = "days"

/-- Modelled from the spec: `recommend_price(material, time_value, time_unit)`.
Fails with `InvalidInput` when `time_value` is non-numeric or ≤ 0 or
`time_unit` is outside {hours, days}; otherwise returns the price band for
the normalized hour count (default policy: unknown materials fall back to
the floor base price, no `UnknownMaterial` failure). -/
def recommend_price (material : String) (time_value : TimeInput)
    (time_unit : String) : Except EngineError PriceResult :=
  match time_value with
  | .nonNumeric _ => .error .InvalidInput
  | .num v =>
    if ¬ valid_time_unit time_unit then .error .InvalidInput
    else if v ≤ 0 then .error .InvalidInput
    else .ok (price_band material (normalize_hours v time_unit))

/-! ### Basic facts about the pricing model -/

theorem base_price_ge_floor (material : String) :
    floor_default_base ≤ base_price material := by
  unfold base_price floor_default_base
  split_ifs <;> norm_num

theorem base_price_ge_200 (material : String) : (200 : ℤ) ≤ base_price material :=
  base_price_ge_floor material

/-- `round` is monotone on rationals. -/
theorem round_mono_q {a b : ℚ} (h : a ≤ b) : round a ≤ round b := by
  rw [round_eq, round_eq]
  exact Int.floor_mono (by linarith)

/-- Lower bound on the middle price: it dominates 1.3 times the base price
plus labor. -/
theorem mid_price_ge (material : String) (hours : ℚ) :
    ((base_price material : ℚ) + hours * hourly_rate) * handmade_premium ≤
      mid_price material hours := by
  unfold mid_price
  have hb : (200 : ℚ) ≤ (base_price material : ℚ) := by
    exact_mod_cast base_price_ge_200 material
  split_ifs with hq
  · unfold quality_multiplier
    unfold hourly_rate handmade_premium quality_threshold at *
    nlinarith
  · exact le_refl _

theorem base_price_cast_ge (material : String) :
    (200 : ℚ) ≤ (base_price material : ℚ) := by
  exact_mod_cast base_price_ge_200 material

theorem mid_price_pos (material : String) (hours : ℚ) (hh : 0 < hours) :
    0 < mid_price material hours := by
  have h1 := mid_price_ge material hours
  have hb := base_price_cast_ge material
  unfold hourly_rate handmade_premium at h1
  nlinarith

/-- The marked-up middle price clears the base price by at least half a
currency unit, so rounding cannot drop `price_high` below the floor. -/
theorem mid_markup_clears_base (material : String) (hours : ℚ) (hh : 0 < hours) :
    (base_price material : ℚ) + 1 / 2 ≤ mid_price material hours * markup_factor := by
  have h1 := mid_price_ge material hours
  have hb := base_price_cast_ge material
  have h2 : ((base_price material : ℚ) + hours * hourly_rate) * handmade_premium *
      markup_factor ≤ mid_price material hours * markup_factor := by
    have hm : (0 : ℚ) ≤ markup_factor := by unfold markup_factor; norm_num
    exact mul_le_mul_of_nonneg_right h1 hm
  unfold hourly_rate handmade_premium at h2
  unfold markup_factor at h2 ⊢
  nlinarith

theorem price_high_ge_base (material : String) (hours : ℚ) (hh : 0 < hours) :
    base_price material ≤ (price_band material hours).price_high := by
  have h1 := mid_markup_clears_base material hours hh
  have h2 := sub_half_lt_round (mid_price material hours * markup_factor)
  have h3 : (base_price material : ℚ) <
      ((round (mid_price material hours * markup_factor) : ℤ) : ℚ) := by linarith
  have h4 : base_price material < round (mid_price material hours * markup_factor) := by
    exact_mod_cast h3
  unfold price_band
  exact le_of_lt h4

theorem price_low_ge_base (material : String) (hours : ℚ) :
    base_price material ≤ (price_band material hours).price_low := by
  unfold price_band
  exact le_max_right _ _

theorem price_band_low_le_high (material : String) (hours : ℚ) (hh : 0 < hours) :
    (price_band material hours).price_low ≤ (price_band material hours).price_high := by
  have hmid := mid_price_pos material hours hh
  have hmono : round (mid_price material hours * discount_factor) ≤
      round (mid_price material hours * markup_factor) := by
    apply round_mono_q
    have : discount_factor ≤ markup_factor := by
      unfold discount_factor markup_factor; norm_num
    nlinarith
  have hbase := price_high_ge_base material hours hh
  unfold price_band at *
  exact max_le hmono hbase

theorem price_band_pos (material : String) (hours : ℚ) (hh : 0 < hours) :
    0 < (price_band material hours).price_low ∧
      0 < (price_band material hours).price_high := by
  have h1 : (0 : ℤ) < base_price material := by
    have := base_price_ge_200 material; omega
  constructor
  · exact lt_of_lt_of_le h1 (price_low_ge_base material hours)
  · exact lt_of_lt_of_le h1 (price_high_ge_base material hours hh)

/-- Inversion: the shapes of a successful `recommend_price` call. -/
theorem recommend_price_ok_iff (material : String) (v : ℚ) (time_unit : String)
    (r : PriceResult) :
    recommend_price material (.num v) time_unit = .ok r ↔
      valid_time_unit time_unit = true ∧ 0 < v ∧
        r = price_band material (normalize_hours v time_unit) := by
  simp only [recommend_price]
  by_cases h1 : valid_time_unit time_unit = true
  · by_cases h2 : v ≤ 0
    · rw [if_neg (not_not_intro h1), if_pos h2]
      constructor
      · intro h; exact Except.noConfusion h
      · rintro ⟨-, hv, -⟩; linarith
    · rw [if_neg (not_not_intro h1), if_neg h2]
      constructor
      · intro h
        injection h with h3
        exact ⟨h1, lt_of_not_le h2, h3.symm⟩
      · rintro ⟨-, -, rfl⟩; rfl
  · rw [if_pos h1]
    constructor
    · intro h; exact Except.noConfusion h
    · rintro ⟨hu, -, -⟩; exact absurd hu h1

theorem normalize_hours_pos (v : ℚ) (time_unit : String) (hv : 0 < v) :
    0 < normalize_hours v time_unit := by
  unfold normalize_hours
  split_ifs <;> linarith

theorem valid_time_unit_of_mem (time_unit : String)
    (hu : time_unit = "hours" ∨ time_unit = "days") :
    valid_time_unit time_unit = true := by
  unfold valid_time_unit
  rcases hu with h | h <;> simp [h]

/-! ### Monotonicity of the pricing model -/

theorem mid_price_mono_hours (material : String) {h1 h2 : ℚ}
    (_hpos : 0 < h1) (hle : h1 ≤ h2) :
    mid_price material h1 ≤ mid_price material h2 := by
  have hb := base_price_cast_ge material
  unfold mid_price hourly_rate handmade_premium quality_threshold quality_multiplier
  split_ifs with hq1 hq2 hq2
  · linarith
  · linarith
  · nlinarith
  · linarith

theorem mid_price_mono_material {m1 m2 : String} (hours : ℚ)
    (hle : base_price m1 ≤ base_price m2) :
    mid_price m1 hours ≤ mid_price m2 hours := by
  have hcast : (base_price m1 : ℚ) ≤ (base_price m2 : ℚ) := by exact_mod_cast hle
  unfold mid_price hourly_rate handmade_premium quality_multiplier
  split_ifs with hq
  · nlinarith
  · nlinarith

theorem price_band_mono_hours (material : String) {h1 h2 : ℚ}
    (hpos : 0 < h1) (hle : h1 ≤ h2) :
    (price_band material h1).price_low ≤ (price_band material h2).price_low ∧
      (price_band material h1).price_high ≤ (price_band material h2).price_high := by
  have hmid := mid_price_mono_hours material hpos hle
  have hd : (0 : ℚ) ≤ discount_factor := by unfold discount_factor; norm_num
  have hm : (0 : ℚ) ≤ markup_factor := by unfold markup_factor; norm_num
  unfold price_band
  constructor
  · exact max_le_max (round_mono_q (mul_le_mul_of_nonneg_right hmid hd)) le_rfl
  · exact round_mono_q (mul_le_mul_of_nonneg_right hmid hm)

theorem price_band_mono_material {m1 m2 : String} (hours : ℚ)
    (hle : base_price m1 ≤ base_price m2) :
    (price_band m1 hours).price_low ≤ (price_band m2 hours).price_low ∧
      (price_band m1 hours).price_high ≤ (price_band m2 hours).price_high := by
  have hmid := mid_price_mono_material hours hle
  have hd : (0 : ℚ) ≤ discount_factor := by unfold discount_factor; norm_num
  have hm : (0 : ℚ) ≤ markup_factor := by unfold markup_factor; norm_num
  unfold price_band
  constructor
  · exact max_le_max (round_mono_q (mul_le_mul_of_nonneg_right hmid hd)) hle
  · exact round_mono_q (mul_le_mul_of_nonneg_right hmid hm)

/-! ### Claim theorems for the price recommender -/

/-- C1: for every valid input (any material, numeric `time_value > 0`,
`time_unit` in {hours, days}), `recommend_price` succeeds and returns a
`PriceResult` whose `price_low` and `price_high` are positive integers with
`price_low ≤ price_high`. -/
theorem recommend_price_ordering (material : String) (v : ℚ) (time_unit : String)
    (hu : time_unit = "hours" ∨ time_unit = "days") (hv : 0 < v) :
    ∃ r : PriceResult, recommend_price material (.num v) time_unit = .ok r ∧
      0 < r.price_low ∧ 0 < r.price_high ∧ r.price_low ≤ r.price_high := by
  have hh := normalize_hours_pos v time_unit hv
  refine ⟨price_band material (normalize_hours v time_unit), ?_, ?_, ?_, ?_⟩
  · exact (recommend_price_ok_iff material v time_unit _).mpr
      ⟨valid_time_unit_of_mem time_unit hu, hv, rfl⟩
  · exact (price_band_pos material _ hh).1
  · exact (price_band_pos material _ hh).2
  · exact price_band_low_le_high material _ hh

/-- Witness for C1. -/
theorem recommend_price_ordering_witness :
    ∃ r : PriceResult, recommend_price "silk" (.num 10) "hours" = .ok r ∧
      0 < r.price_low ∧ 0 < r.price_high ∧ r.price_low ≤ r.price_high :=
  recommend_price_ordering "silk" 10 "hours" (Or.inl rfl) (by norm_num)

/-- C2: for every valid input both returned bounds are at least the
material's base price (the floor default for unknown materials), and
`price_low` equals the base price exactly when the discounted rounding
would fall below the floor. -/
theorem recommend_price_floor_clamp (material : String) (v : ℚ) (time_unit : String)
    (hu : time_unit = "hours" ∨ time_unit = "days") (hv : 0 < v) :
    ∃ r : PriceResult, recommend_price material (.num v) time_unit = .ok r ∧
      base_price material ≤ r.price_low ∧ base_price material ≤ r.price_high ∧
      (round (mid_price material (normalize_hours v time_unit) * discount_factor) <
          base_price material → r.price_low = base_price material) := by
  have hh := normalize_hours_pos v time_unit hv
  refine ⟨price_band material (normalize_hours v time_unit), ?_, ?_, ?_, ?_⟩
  · exact (recommend_price_ok_iff material v time_unit _).mpr
      ⟨valid_time_unit_of_mem time_unit hu, hv, rfl⟩
  · exact price_low_ge_base material _
  · exact price_high_ge_base material _ hh
  · intro hlt
    unfold price_band
    exact max_eq_right (le_of_lt hlt)

/-- Witness for C2. -/
theorem recommend_price_floor_clamp_witness :
    ∃ r : PriceResult, recommend_price "silk" (.num 1) "hours" = .ok r ∧
      base_price "silk" ≤ r.price_low ∧ base_price "silk" ≤ r.price_high ∧
      (round (mid_price "silk" (normalize_hours 1 "hours") * discount_factor) <
          base_price "silk" → r.price_low = base_price "silk") :=
  recommend_price_floor_clamp "silk" 1 "hours" (Or.inl rfl) (by norm_num)

/-- C3: `recommend_price` is monotone.  For a fixed material, if the
normalized hour counts satisfy `h1 ≤ h2` then both price bounds for `h1`
are at most those for `h2` (the quality-bonus step included); for a fixed
duration, a material with a higher base price never yields lower bounds. -/
theorem recommend_price_monotone :
    (∀ (m : String) (t1 t2 : ℚ) (u1 u2 : String) (r1 r2 : PriceResult),
        recommend_price m (.num t1) u1 = .ok r1 →
        recommend_price m (.num t2) u2 = .ok r2 →
        normalize_hours t1 u1 ≤ normalize_hours t2 u2 →
        r1.price_low ≤ r2.price_low ∧ r1.price_high ≤ r2.price_high) ∧
    (∀ (m1 m2 : String) (t : ℚ) (u : String) (r1 r2 : PriceResult),
        recommend_price m1 (.num t) u = .ok r1 →
        recommend_price m2 (.num t) u = .ok r2 →
        base_price m1 ≤ base_price m2 →
        r1.price_low ≤ r2.price_low ∧ r1.price_high ≤ r2.price_high) := by
  constructor
  · intro m t1 t2 u1 u2 r1 r2 hr1 hr2 hle
    obtain ⟨-, hv1, rfl⟩ := (recommend_price_ok_iff m t1 u1 r1).mp hr1
    obtain ⟨-, hv2, rfl⟩ := (recommend_price_ok_iff m t2 u2 r2).mp hr2
    exact price_band_mono_hours m (normalize_hours_pos t1 u1 hv1) hle
  · intro m1 m2 t u r1 r2 hr1 hr2 hle
    obtain ⟨-, hv1, rfl⟩ := (recommend_price_ok_iff m1 t u r1).mp hr1
    obtain ⟨-, hv2, rfl⟩ := (recommend_price_ok_iff m2 t u r2).mp hr2
    exact price_band_mono_material (normalize_hours t u) hle

/-- Witness for C3: silk at 5 vs 25 hours (crossing the quality threshold),
and cotton vs silk at 5 hours. -/
theorem recommend_price_monotone_witness :
    ∃ r1 r2 r3 : PriceResult,
      recommend_price "silk" (.num 5) "hours" = .ok r1 ∧
      recommend_price "silk" (.num 25) "hours" = .ok r2 ∧
      r1.price_low ≤ r2.price_low ∧ r1.price_high ≤ r2.price_high ∧
      recommend_price "cotton" (.num 5) "hours" = .ok r3 ∧
      r3.price_low ≤ r1.price_low ∧ r3.price_high ≤ r1.price_high := by
  have hs5 : recommend_price "silk" (.num 5) "hours" =
      .ok (price_band "silk" (normalize_hours 5 "hours")) :=
    (recommend_price_ok_iff _ _ _ _).mpr ⟨by decide, by norm_num, rfl⟩
  have hs25 : recommend_price "silk" (.num 25) "hours" =
      .ok (price_band "silk" (normalize_hours 25 "hours")) :=
    (recommend_price_ok_iff _ _ _ _).mpr ⟨by decide, by norm_num, rfl⟩
  have hc5 : recommend_price "cotton" (.num 5) "hours" =
      .ok (price_band "cotton" (normalize_hours 5 "hours")) :=
    (recommend_price_ok_iff _ _ _ _).mpr ⟨by decide, by norm_num, rfl⟩
  have hle : normalize_hours 5 "hours" ≤ normalize_hours 25 "hours" := by
    unfold normalize_hours
    have hnd : ¬ ("hours" : String) = "days" := by decide
    rw [if_neg hnd, if_neg hnd]
    norm_num
  obtain ⟨ha, hb⟩ :=
    recommend_price_monotone.1 "silk" 5 25 "hours" "hours" _ _ hs5 hs25 hle
  obtain ⟨hc, hd⟩ :=
    recommend_price_monotone.2 "cotton" "silk" 5 "hours" _ _ hc5 hs5 (by decide)
  exact ⟨_, _, _, hs5, hs25, ha, hb, hc5, hc, hd⟩

/-- C4: values expressed in days are priced exactly as 8 times as many
hours; in particular 8 hours and 1 day coincide. -/
theorem recommend_price_unit_equiv (material : String) (t : ℚ) (ht : 0 < t) :
    recommend_price material (.num (8 * t)) "hours" =
      recommend_price material (.num t) "days" := by
  simp only [recommend_price]
  have hu1 : valid_time_unit "hours" = true := by decide
  have hu2 : valid_time_unit "days" = true := by decide
  rw [if_neg (not_not_intro hu1), if_neg (not_not_intro hu2),
    if_neg (by linarith : ¬ (8 * t ≤ 0)), if_neg (by linarith : ¬ (t ≤ 0))]
  unfold normalize_hours
  rw [if_neg (by decide : ¬ ("hours" : String) = "days"),
    if_pos (rfl : ("days" : String) = "days"), mul_comm]

/-- Witness for C4. -/
theorem recommend_price_unit_equiv_witness :
    recommend_price "silk" (.num (8 * 1)) "hours" =
      recommend_price "silk" (.num 1) "days" :=
  recommend_price_unit_equiv "silk" 1 (by norm_num)

/-- C5: `recommend_price` fails, with `InvalidInput`, exactly when the
time value is non-numeric or non-positive or the unit is outside
{hours, days}; it never fails with `UnknownMaterial`, and a failing call
returns the bare error, never a partial `PriceResult`. -/
theorem recommend_price_invalid_iff (material : String) (tv : TimeInput)
    (time_unit : String) :
    (recommend_price material tv time_unit = .error .InvalidInput ↔
      (∃ s, tv = .nonNumeric s) ∨ (∃ v : ℚ, tv = .num v ∧ v ≤ 0) ∨
        (time_unit ≠ "hours" ∧ time_unit ≠ "days")) ∧
    recommend_price material tv time_unit ≠ .error .UnknownMaterial := by
  cases tv with
  | nonNumeric s =>
    refine ⟨⟨fun _ => Or.inl ⟨s, rfl⟩, fun _ => rfl⟩, ?_⟩
    intro h
    exact EngineError.noConfusion (Except.error.inj h)
  | num v =>
    simp only [recommend_price]
    by_cases h1 : valid_time_unit time_unit = true
    · have hu : ¬ (time_unit ≠ "hours" ∧ time_unit ≠ "days") := by
        unfold valid_time_unit at h1
        rcases Bool.or_eq_true_iff.mp h1 with h | h <;>
          simp only [decide_eq_true_eq] at h <;> simp [h]
      by_cases h2 : v ≤ 0
      · rw [if_neg (not_not_intro h1), if_pos h2]
        refine ⟨⟨fun _ => Or.inr (Or.inl ⟨v, rfl, h2⟩), fun _ => rfl⟩, ?_⟩
        intro h
        exact EngineError.noConfusion (Except.error.inj h)
      · rw [if_neg (not_not_intro h1), if_neg h2]
        refine ⟨⟨fun h => Except.noConfusion h, ?_⟩, fun h => Except.noConfusion h⟩
        rintro (⟨s, hs⟩ | ⟨w, hw, hw0⟩ | hne)
        · exact TimeInput.noConfusion hs
        · cases TimeInput.num.inj hw
          exact absurd hw0 h2
        · exact absurd hne hu
    · rw [if_pos h1]
      have hne : time_unit ≠ "hours" ∧ time_unit ≠ "days" := by
        unfold valid_time_unit at h1
        constructor <;> intro h <;> subst h <;> simp at h1
      refine ⟨⟨fun _ => Or.inr (Or.inr hne), fun _ => rfl⟩, ?_⟩
      intro h
      exact EngineError.noConfusion (Except.error.inj h)

/-! ### Caption generator

The caption generator is modelled from the spec (§4.1): material descriptors,
at least 6 (here 8, following the setup guide) sentence templates chosen by
an explicit selection key mod the template count, graceful handling of blank
artisan name / location, and a mention of material, handmade nature and
cultural value in every template. -/

/-- ASCII lower-casing of one character (the model of the spec's
"normalize `material` to lower-case"). -/
def lower_char (c : Char) : Char :=
  if 'A' ≤ c ∧ c ≤ 'Z' then Char.ofNat (c.toNat + 32) else c

/-- ASCII lower-casing of a string. -/
def lower_string (s : String) : String := ⟨s.data.map lower_char⟩

/-- Modelled from the spec: the generic "handcrafted" descriptor set used
for unknown materials. -/
def generic_descriptor : String := "handcrafted with care and rooted in living heritage"

/-- Modelled from the spec: fixed mapping from material to a short list of
descriptive phrases (silk → "lustrous, smooth, prized for centuries",
cotton → "breathable, versatile, everyday elegance", remaining materials
analogous), unknown materials mapping to the generic descriptor. -/
def descriptor (material : String) : String :=
  if material = "cotton" then "breathable, versatile, everyday elegance"
  else if material = "silk" then "lustrous, smooth, prized for centuries"
  else if material = "wool" then "warm, resilient, spun with patience"
  else if material = "jute" then "earthy, sturdy, golden-fibred"
  else if material = "linen" then "cool, crisp, woven heritage"
  else if material = "khadi" then "humble, dignified, freedom-spun"
  else if material = "wood" then "grain-rich, enduring, carved with devotion"
  else if material = "clay" then "earthen, soulful, shaped by hand"
  else if material = "metal" then "gleaming, lasting, forged with skill"
  else generic_descriptor

/-- Modelled from the spec: neutral phrasing "a skilled artisan" when the
artisan name is blank. -/
def artisan_phrase (artisan_name : String) : String :=
  if artisan_name = "" then "a skilled artisan" else artisan_name

/-- Modelled from the spec: the location clause is omitted when the
location is blank. -/
def location_clause (location : String) : String :=
  if location = "" then "" else " in " ++ location

/-- Rendering of a rational number for the time phrase. -/
def rat_str (q : ℚ) : String :=
  if q.den = 1 then toString q.num else toString q.num ++ "/" ++ toString q.den

/-- Modelled from the spec: a human-readable time phrase such as
"3 days". -/
def time_phrase (time_value : ℚ) (time_unit : String) : String :=
  rat_str time_value ++ " " ++ time_unit

/-- The filled-in placeholder values of a caption template. -/
structure CaptionParts where
  mat : String
  desc : String
  who : String
  locC : String
  timeP : String

/-- Modelled from the spec: the 8 sentence templates.  Each mentions the
material, the handmade/traditional nature and the cultural value, and is
parameterized by descriptor, artisan phrase, location clause and time
phrase.  Selection keys beyond the range are never produced (the generator
reduces the key mod 8); the wildcard arm repeats the first template. -/
def template (i : ℕ) (p : CaptionParts) : String :=
  match i with
  | 0 => "Discover this " ++ p.desc ++ " " ++ p.mat ++
      " creation, lovingly handcrafted by " ++ p.who ++ p.locC ++ " over " ++
      p.timeP ++ ", carrying forward a rich cultural heritage."
  | 1 => "A timeless piece of " ++ p.mat ++ " artistry: " ++ p.desc ++
      ", handmade by " ++ p.who ++ p.locC ++ " with " ++ p.timeP ++
      " of devoted work rooted in tradition."
  | 2 => "Experience the cultural value of authentic " ++ p.mat ++ ", " ++
      p.desc ++ ", handcrafted by " ++ p.who ++ p.locC ++ " through " ++
      p.timeP ++ " of traditional skill."
  | 3 => "From the hands of " ++ p.who ++ p.locC ++ " comes this " ++ p.desc ++
      " " ++ p.mat ++ " treasure, a handmade tribute to living tradition shaped over " ++
      p.timeP ++ "."
  | 4 => "Celebrate heritage with this " ++ p.mat ++ " piece, " ++ p.desc ++
      ", handwoven into tradition by " ++ p.who ++ p.locC ++ " across " ++
      p.timeP ++ "."
  | 5 => "Each detail of this " ++ p.desc ++ " " ++ p.mat ++
      " work tells a story of tradition, handcrafted by " ++ p.who ++ p.locC ++
      " in " ++ p.timeP ++ " of cultural devotion."
  | 6 => "Honoring generations of craft, " ++ p.who ++ p.locC ++ " spent " ++
      p.timeP ++ " handmaking this " ++ p.desc ++ " " ++ p.mat ++
      " piece of cultural pride."
  | 7 => "An heirloom in the making: " ++ p.desc ++ " " ++ p.mat ++
      ", handcrafted with traditional care by " ++ p.who ++ p.locC ++ " over " ++
      p.timeP ++ "."
  | _ => "Discover this " ++ p.desc ++ " " ++ p.mat ++
      " creation, lovingly handcrafted by " ++ p.who ++ p.locC ++ " over " ++
      p.timeP ++ ", carrying forward a rich cultural heritage."

/-- The placeholder values built from a caption request. -/
def caption_parts (material : String) (v : ℚ)
    (time_unit artisan_name location : String) : CaptionParts :=
  { mat := lower_string material
    desc := descriptor (lower_string material)
    who := artisan_phrase artisan_name
    locC := location_clause location
    timeP := time_phrase v time_unit }

/-- Modelled from the spec: `generate_caption(material, time_value,
time_unit, artisan_name?, location?, selection_key?)`.  Fails with
`InvalidInput` only for a non-numeric time value; the material is
normalized to lower case, looked up in the descriptor table (falling back
to the generic descriptor) and the template chosen by the selection key mod
the template count is filled in. -/
def generate_caption (material : String) (time_value : TimeInput)
    (time_unit artisan_name location : String) (selection_key : ℕ) :
    Except EngineError String :=
  match time_value with
  | .nonNumeric _ => .error .InvalidInput
  | .num v =>
    .ok (template (selection_key % 8)
      (caption_parts material v time_unit artisan_name location))

/-! ### Substring machinery for the caption contracts -/

/-- `startsW hay needle` holds when `needle` is an initial run of `hay`. -/
def startsW : List Char → List Char → Bool
  | _, [] => true
  | [], _ :: _ => false
  | b :: l, a :: p => a = b && startsW l p

/-- `containsSub hay needle` holds when `needle` occurs contiguously
inside `hay`. -/
def containsSub : List Char → List Char → Bool
  | [], n => n.isEmpty
  | c :: l, n => startsW (c :: l) n || containsSub l n

/-- Substring occurrence on strings. -/
def str_contains (hay needle : String) : Bool :=
  containsSub hay.data needle.data

theorem startsW_self_append (p rest : List Char) :
    startsW (p ++ rest) p = true := by
  induction p with
  | nil => simp [startsW]
  | cons c p ih => simp [startsW, ih]

theorem containsSub_cons (c : Char) (l n : List Char)
    (h : containsSub l n = true) : containsSub (c :: l) n = true := by
  simp [containsSub, h]

theorem containsSub_append_left (a b n : List Char)
    (h : containsSub b n = true) : containsSub (a ++ b) n = true := by
  induction a with
  | nil => simpa using h
  | cons c a ih => exact containsSub_cons c _ n ih

theorem containsSub_of_startsW (l n : List Char)
    (h : startsW l n = true) : containsSub l n = true := by
  cases l with
  | nil =>
    cases n with
    | nil => rfl
    | cons c n => simp [startsW] at h
  | cons c l => simp [containsSub, h]

theorem str_append_ne_empty_left (a b : String) (h : a ≠ "") :
    a ++ b ≠ "" := by
  intro he
  apply h
  have hd := congrArg String.data he
  rw [String.data_append] at hd
  rcases List.append_eq_nil.mp hd with ⟨h1, -⟩
  exact String.ext h1

/-- Every template mentions the material placeholder. -/
theorem template_mentions (i : ℕ) (p : CaptionParts) :
    str_contains (template i p) p.mat = true := by
  unfold str_contains
  rcases i with _ | _ | _ | _ | _ | _ | _ | _ | i <;>
    · simp only [template, String.data_append, List.append_assoc]
      repeat first
        | exact containsSub_of_startsW _ _ (startsW_self_append _ _)
        | apply containsSub_append_left

/-- Every template produces a non-empty caption. -/
theorem template_ne_empty (i : ℕ) (p : CaptionParts) : template i p ≠ "" := by
  rcases i with _ | _ | _ | _ | _ | _ | _ | _ | i <;>
    · simp only [template]
      repeat apply str_append_ne_empty_left
      decide

theorem base_price_unknown (m : String) (hm : m ∉ knownMaterials) :
    base_price m = floor_default_base := by
  simp only [knownMaterials, List.mem_cons, List.not_mem_nil, or_false] at hm
  push_neg at hm
  obtain ⟨h1, h2, h3, h4, h5, h6, h7, h8, h9⟩ := hm
  simp [base_price, h1, h2, h3, h4, h5, h6, h7, h8, h9]

theorem descriptor_unknown (m : String) (hm : m ∉ knownMaterials) :
    descriptor m = generic_descriptor := by
  simp only [knownMaterials, List.mem_cons, List.not_mem_nil, or_false] at hm
  push_neg at hm
  obtain ⟨h1, h2, h3, h4, h5, h6, h7, h8, h9⟩ := hm
  simp [descriptor, h1, h2, h3, h4, h5, h6, h7, h8, h9]

/-- C6: materials outside the enumeration never cause a failure: the price
is computed from the floor default base price and the caption from the
generic descriptor set, both successfully. -/
theorem unknown_material_fallback (m : String)
    (hm : m ∉ knownMaterials) (hml : lower_string m ∉ knownMaterials)
    (v : ℚ) (time_unit : String)
    (hu : time_unit = "hours" ∨ time_unit = "days") (hv : 0 < v)
    (artisan_name location : String) (key : ℕ) :
    base_price m = floor_default_base ∧
    (∃ r, recommend_price m (.num v) time_unit = .ok r ∧
        r = price_band m (normalize_hours v time_unit)) ∧
    descriptor (lower_string m) = generic_descriptor ∧
    (∃ c, generate_caption m (.num v) time_unit artisan_name location key = .ok c ∧
        c ≠ "") := by
  refine ⟨base_price_unknown m hm, ⟨_, ?_, rfl⟩, descriptor_unknown _ hml, ⟨_, rfl, ?_⟩⟩
  · exact (recommend_price_ok_iff m v time_unit _).mpr
      ⟨valid_time_unit_of_mem time_unit hu, hv, rfl⟩
  · exact template_ne_empty _ _

/-- Witness for C6: the spec's `unobtainium` example. -/
theorem unknown_material_fallback_witness :
    base_price "unobtainium" = floor_default_base ∧
    (∃ r, recommend_price "unobtainium" (.num 10) "hours" = .ok r ∧
        r = price_band "unobtainium" (normalize_hours 10 "hours")) ∧
    descriptor (lower_string "unobtainium") = generic_descriptor ∧
    (∃ c, generate_caption "unobtainium" (.num 10) "hours" "Lakshmi" "Varanasi" 0 =
        .ok c ∧ c ≠ "") :=
  unknown_material_fallback "unobtainium" (by decide) (by decide) 10 "hours"
    (Or.inl rfl) (by norm_num) "Lakshmi" "Varanasi" 0

/-- C7: every caption is non-empty and mentions the (lower-cased) material;
the spec's silk example contains "silk", "Lakshmi" and "Varanasi"; and with
blank artisan name and location no placeholder artifact ("null",
"undefined", "None") appears, whatever the selection key. -/
theorem generate_caption_contract :
    (∀ (material : String) (v : ℚ) (time_unit artisan_name location : String)
        (key : ℕ),
        ∃ c, generate_caption material (.num v) time_unit artisan_name location
            key = .ok c ∧
          c ≠ "" ∧ str_contains c (lower_string material) = true) ∧
    (∀ key : ℕ,
        ∃ c, generate_caption "silk" (.num 3) "days" "Lakshmi" "Varanasi" key =
            .ok c ∧
          str_contains c "silk" = true ∧ str_contains c "Lakshmi" = true ∧
          str_contains c "Varanasi" = true) ∧
    (∀ key : ℕ,
        ∃ c, generate_caption "silk" (.num 3) "days" "" "" key = .ok c ∧
          str_contains c "null" = false ∧ str_contains c "undefined" = false ∧
          str_contains c "None" = false) := by
  refine ⟨?_, ?_, ?_⟩
  · intro material v time_unit artisan_name location key
    exact ⟨_, rfl, template_ne_empty _ _, template_mentions (key % 8)
      (caption_parts material v time_unit artisan_name location)⟩
  · intro key
    have h : ∀ i < 8,
        str_contains (template i (caption_parts "silk" 3 "days" "Lakshmi" "Varanasi"))
            "silk" = true ∧
          str_contains (template i (caption_parts "silk" 3 "days" "Lakshmi" "Varanasi"))
            "Lakshmi" = true ∧
          str_contains (template i (caption_parts "silk" 3 "days" "Lakshmi" "Varanasi"))
            "Varanasi" = true := by decide
    obtain ⟨h1, h2, h3⟩ := h (key % 8) (Nat.mod_lt key (by norm_num))
    exact ⟨_, rfl, h1, h2, h3⟩
  · intro key
    have h : ∀ i < 8,
        str_contains (template i (caption_parts "silk" 3 "days" "" "")) "null" = false ∧
          str_contains (template i (caption_parts "silk" 3 "days" "" "")) "undefined" =
            false ∧
          str_contains (template i (caption_parts "silk" 3 "days" "" "")) "None" =
            false := by decide
    obtain ⟨h1, h2, h3⟩ := h (key % 8) (Nat.mod_lt key (by norm_num))
    exact ⟨_, rfl, h1, h2, h3⟩

/-- C8: both engine operations are pure functions of their arguments (the
explicit selection key included), so two calls with identical arguments
return identical results. -/
theorem engine_deterministic :
    (∀ (material : String) (tv : TimeInput) (time_unit : String),
        recommend_price material tv time_unit = recommend_price material tv time_unit) ∧
    (∀ (material : String) (tv : TimeInput)
        (time_unit artisan_name location : String) (key : ℕ),
        generate_caption material tv time_unit artisan_name location key =
          generate_caption material tv time_unit artisan_name location key) :=
  ⟨fun _ _ _ => rfl, fun _ _ _ _ _ _ => rfl⟩

/-! ### JSON values and the browser `JSON` built-ins

`frontend/js/auth.js` stores the user object with `JSON.stringify` and
reads it back with `JSON.parse`.  These browser built-ins are modelled by a
concrete printer/parser pair over a JSON value type (numbers restricted to
integers, string escaping restricted to the quote and backslash escapes the
printer emits), and the round-trip law the built-ins guarantee for
serializable values is proved for the model. -/

/-- A JSON-serializable JavaScript value. -/
inductive Json where
  | null
  | bool (b : Bool)
  | num (n : ℤ)
  | str (s : String)
  | arr (elems : List Json)
  | obj (fields : List (String × Json))

/-- One character of JSON string content, escaping `"` and `\`. -/
def escape_char (c : Char) : List Char :=
  if c = '"' ∨ c = '\\' then ['\\', c] else [c]

/-- Escaped JSON string content. -/
def escape_chars : List Char → List Char
  | [] => []
  | c :: cs => escape_char c ++ escape_chars cs

/-- Decimal digits of a natural number, most significant first. -/
def print_nat (n : ℕ) : List Char :=
  if n = 0 then ['0'] else ((Nat.digits 10 n).map Nat.digitChar).reverse

/-- Decimal rendering of an integer. -/
def print_int (n : ℤ) : List Char :=
  if n < 0 then '-' :: print_nat n.natAbs else print_nat n.natAbs

mutual

/-- The JSON rendering of a value (the model of `JSON.stringify`). -/
def printJson : Json → List Char
  | .null => "null".data
  | .bool true => "true".data
  | .bool false => "false".data
  | .num n => print_int n
  | .str s => '"' :: escape_chars s.data ++ ['"']
  | .arr es => '[' :: printElems es ++ [']']
  | .obj fs => '{' :: printFields fs ++ ['}']

/-- Comma-separated renderings of array elements. -/
def printElems : List Json → List Char
  | [] => []
  | [j] => printJson j
  | j :: j2 :: rest => printJson j ++ ',' :: printElems (j2 :: rest)

/-- Comma-separated renderings of object fields. -/
def printFields : List (String × Json) → List Char
  | [] => []
  | [(k, v)] => printField k v
  | (k, v) :: f2 :: rest => printField k v ++ ',' :: printFields (f2 :: rest)

/-- The rendering `"key":value` of one object field. -/
def printField (k : String) (v : Json) : List Char :=
  '"' :: escape_chars k.data ++ ['"', ':'] ++ printJson v

end

/-- `JSON.stringify` on the value model. -/
def JSON_stringify (j : Json) : String := ⟨printJson j⟩

/-- The numeric value of a decimal digit character. -/
def digit_val (c : Char) : Option ℕ :=
  if '0' ≤ c ∧ c ≤ '9' then some (c.toNat - '0'.toNat) else none

/-- Splits a leading run of decimal digits off the input. -/
def parseDigits : List Char → List ℕ × List Char
  | [] => ([], [])
  | c :: rest =>
    match digit_val c with
    | none => ([], c :: rest)
    | some d =>
      let p := parseDigits rest
      (d :: p.1, p.2)

/-- Parses a non-empty run of decimal digits as a natural number. -/
def parseNat (cs : List Char) : Option (ℕ × List Char) :=
  match parseDigits cs with
  | ([], _) => none
  | (d :: ds, rest) => some (Nat.ofDigits 10 (d :: ds).reverse, rest)

/-- Parses JSON string content up to the closing quote, undoing the
escapes. -/
def parseStrChars : List Char → Option (List Char × List Char)
  | [] => none
  | c :: rest =>
    if c = '\\' then
      match rest with
      | [] => none
      | c2 :: rest2 =>
        match parseStrChars rest2 with
        | none => none
        | some (s, r) => some (c2 :: s, r)
    else if c = '"' then some ([], rest)
    else
      match parseStrChars rest with
      | none => none
      | some (s, r) => some (c :: s, r)

/-- Consumes an expected literal character sequence. -/
def expectLit : List Char → List Char → Option (List Char)
  | [], cs => some cs
  | _ :: _, [] => none
  | l :: ls, c :: cs => if c = l then expectLit ls cs else none

/-- Whether the input starts with the given character. -/
def head_is (c : Char) : List Char → Bool
  | [] => false
  | c2 :: _ => c2 = c

mutual

/-- Fuel-indexed recursive-descent JSON value parsing (the model of
`JSON.parse`, on printer output; no whitespace skipping). -/
def parseValue : ℕ → List Char → Option (Json × List Char)
  | 0, _ => none
  | fuel + 1, cs =>
    match cs with
    | [] => none
    | c :: rest =>
      if c = 'n' then
        match expectLit ['u', 'l', 'l'] rest with
        | none => none
        | some r => some (.null, r)
      else if c = 't' then
        match expectLit ['r', 'u', 'e'] rest with
        | none => none
        | some r => some (.bool true, r)
      else if c = 'f' then
        match expectLit ['a', 'l', 's', 'e'] rest with
        | none => none
        | some r => some (.bool false, r)
      else if c = '"' then
        match parseStrChars rest with
        | none => none
        | some (s, r) => some (.str ⟨s⟩, r)
      else if c = '-' then
        match parseNat rest with
        | none => none
        | some (n, r) => some (.num (-(n : ℤ)), r)
      else if c = '[' then
        if head_is ']' rest then some (.arr [], rest.tail)
        else
          match parseElems fuel rest with
          | none => none
          | some (es, r) => some (.arr es, r)
      else if c = '{' then
        if head_is '}' rest then some (.obj [], rest.tail)
        else
          match parseFields fuel rest with
          | none => none
          | some (fs, r) => some (.obj fs, r)
      else
        match parseNat (c :: rest) with
        | none => none
        | some (n, r) => some (.num (n : ℤ), r)

/-- Parses a non-empty element list followed by the closing bracket. -/
def parseElems : ℕ → List Char → Option (List Json × List Char)
  | 0, _ => none
  | fuel + 1, cs =>
    match parseValue fuel cs with
    | none => none
    | some (j, r) =>
      match r with
      | ',' :: r2 =>
        match parseElems fuel r2 with
        | none => none
        | some (es, r3) => some (j :: es, r3)
      | ']' :: r2 => some ([j], r2)
      | _ => none

/-- Parses a non-empty field list followed by the closing brace. -/
def parseFields : ℕ → List Char → Option (List (String × Json) × List Char)
  | 0, _ => none
  | fuel + 1, cs =>
    match cs with
    | '"' :: cs1 =>
      match parseStrChars cs1 with
      | none => none
      | some (k, r1) =>
        match r1 with
        | ':' :: r2 =>
          match parseValue fuel r2 with
          | none => none
          | some (v, r3) =>
            match r3 with
            | ',' :: r4 =>
              match parseFields fuel r4 with
              | none => none
              | some (fs, r5) => some ((⟨k⟩, v) :: fs, r5)
            | '}' :: r4 => some ([(⟨k⟩, v)], r4)
            | _ => none
        | _ => none
    | _ => none

end

/-- `JSON.parse` on the value model: the whole input must be consumed. -/
def JSON_parse (s : String) : Option Json :=
  match parseValue (s.data.length + 1) s.data with
  | some (j, []) => some j
  | _ => none

mutual

/-- Fuel cost of parsing a value. -/
def jsize : Json → ℕ
  | .null => 1
  | .bool _ => 1
  | .num _ => 1
  | .str _ => 1
  | .arr es => 1 + lsize es
  | .obj fs => 1 + fsize fs

/-- Fuel cost of parsing an element list. -/
def lsize : List Json → ℕ
  | [] => 0
  | j :: js => 1 + jsize j + lsize js

/-- Fuel cost of parsing a field list. -/
def fsize : List (String × Json) → ℕ
  | [] => 0
  | (_, v) :: fs => 1 + jsize v + fsize fs

end

/-- Continuations after a printed number: end of input or a delimiter,
never another digit. -/
def good_rest : List Char → Prop
  | [] => True
  | c :: _ => digit_val c = none

/-! ### Correctness of the JSON parser on printer output -/

theorem expectLit_self (lit rest : List Char) :
    expectLit lit (lit ++ rest) = some rest := by
  induction lit with
  | nil => rfl
  | cons c ls ih => simp [expectLit, ih]

theorem parseStrChars_close (rest : List Char) :
    parseStrChars ('"' :: rest) = some ([], rest) := by
  rw [parseStrChars.eq_def]
  simp [(by decide : ¬ ('"' : Char) = '\\')]

theorem parseStrChars_cons_raw (c : Char) (rest s r : List Char)
    (h1 : ¬ c = '\\') (h2 : ¬ c = '"')
    (ih : parseStrChars rest = some (s, r)) :
    parseStrChars (c :: rest) = some (c :: s, r) := by
  rw [parseStrChars.eq_def]
  simp only [h1, h2, if_false, ih]

theorem parseStrChars_cons_esc (c : Char) (rest s r : List Char)
    (ih : parseStrChars rest = some (s, r)) :
    parseStrChars ('\\' :: c :: rest) = some (c :: s, r) := by
  rw [parseStrChars.eq_def]
  simp [ih]

theorem parseStrChars_escape (s rest : List Char) :
    parseStrChars (escape_chars s ++ ('"' :: rest)) = some (s, rest) := by
  induction s with
  | nil => simpa [escape_chars] using parseStrChars_close rest
  | cons c s ih =>
    by_cases hc : c = '"' ∨ c = '\\'
    · have hesc : escape_char c = ['\\', c] := by simp [escape_char, hc]
      simp only [escape_chars, hesc, List.cons_append, List.nil_append,
        List.append_assoc]
      exact parseStrChars_cons_esc c _ s rest ih
    · push_neg at hc
      have hesc : escape_char c = [c] := by simp [escape_char, hc.1, hc.2]
      simp only [escape_chars, hesc, List.singleton_append, List.cons_append,
        List.nil_append, List.append_assoc]
      exact parseStrChars_cons_raw c _ s rest hc.2 hc.1 ih

theorem digit_val_digitChar : ∀ d < 10, digit_val (Nat.digitChar d) = some d := by
  decide

theorem digitChar_not_special : ∀ d < 10,
    Nat.digitChar d ≠ 'n' ∧ Nat.digitChar d ≠ 't' ∧ Nat.digitChar d ≠ 'f' ∧
      Nat.digitChar d ≠ '"' ∧ Nat.digitChar d ≠ '-' ∧ Nat.digitChar d ≠ '[' ∧
      Nat.digitChar d ≠ '{' ∧ Nat.digitChar d ≠ ']' ∧ Nat.digitChar d ≠ '}' := by
  decide

theorem good_rest_of_delim (c : Char) (x : List Char)
    (hc : digit_val c = none) : good_rest (c :: x) := hc

theorem good_rest_nil : good_rest [] := trivial

theorem parseDigits_notdigit (rest : List Char) (hr : good_rest rest) :
    parseDigits rest = ([], rest) := by
  cases rest with
  | nil => rfl
  | cons c x =>
    unfold good_rest at hr
    simp [parseDigits, hr]

theorem parseDigits_run (ds : List ℕ) (rest : List Char)
    (hds : ∀ d ∈ ds, d < 10) (hr : good_rest rest) :
    parseDigits (ds.map Nat.digitChar ++ rest) = (ds, rest) := by
  induction ds with
  | nil => simpa using parseDigits_notdigit rest hr
  | cons d ds ih =>
    have hd : d < 10 := hds d (List.mem_cons_self d ds)
    have hds2 : ∀ x ∈ ds, x < 10 := fun x hx => hds x (List.mem_cons_of_mem d hx)
    simp [parseDigits, digit_val_digitChar d hd, ih hds2]

theorem parseNat_print (n : ℕ) (rest : List Char) (hr : good_rest rest) :
    parseNat (print_nat n ++ rest) = some (n, rest) := by
  unfold print_nat
  by_cases h0 : n = 0
  · subst h0
    rw [if_pos rfl]
    have h1 : parseDigits (('0' :: []) ++ rest) = ([0], rest) := by
      have := parseDigits_run [0] rest (by norm_num) hr
      simpa using this
    simp only [List.singleton_append] at h1 ⊢
    unfold parseNat
    rw [h1]
    norm_num [Nat.ofDigits]
  · rw [if_neg h0]
    have hmap : ((Nat.digits 10 n).map Nat.digitChar).reverse =
        ((Nat.digits 10 n).reverse).map Nat.digitChar := (List.map_reverse _ _).symm
    have hlt : ∀ d ∈ (Nat.digits 10 n).reverse, d < 10 := by
      intro d hd
      exact Nat.digits_lt_base (by norm_num) (List.mem_reverse.mp hd)
    have hrun := parseDigits_run ((Nat.digits 10 n).reverse) rest hlt hr
    rw [hmap]
    have hne : (Nat.digits 10 n).reverse ≠ [] := by
      simp [Nat.digits_ne_nil_iff_ne_zero, h0]
    obtain ⟨d, ds, hcons⟩ := List.exists_cons_of_ne_nil hne
    rw [hcons] at hrun ⊢
    unfold parseNat
    rw [hrun]
    show some (Nat.ofDigits 10 (d :: ds).reverse, rest) = some (n, rest)
    have hrev : (d :: ds).reverse = Nat.digits 10 n := by
      rw [← hcons, List.reverse_reverse]
    rw [hrev, Nat.ofDigits_digits]

theorem print_nat_shape (n : ℕ) :
    ∃ d cs, d < 10 ∧ print_nat n = Nat.digitChar d :: cs := by
  unfold print_nat
  by_cases h0 : n = 0
  · exact ⟨0, [], by norm_num, by subst h0; decide⟩
  · rw [if_neg h0]
    have hne : (Nat.digits 10 n).reverse ≠ [] := by
      simp [Nat.digits_ne_nil_iff_ne_zero, h0]
    obtain ⟨d, ds, hcons⟩ := List.exists_cons_of_ne_nil hne
    have hd : d < 10 := by
      have : d ∈ (Nat.digits 10 n).reverse := by rw [hcons]; exact List.mem_cons_self d ds
      exact Nat.digits_lt_base (by norm_num) (List.mem_reverse.mp this)
    refine ⟨d, ds.map Nat.digitChar, hd, ?_⟩
    rw [(List.map_reverse _ _).symm.trans (congrArg _ hcons)]
    rfl

theorem printJson_head (j : Json) :
    ∃ c cs, printJson j = c :: cs ∧ c ≠ ']' ∧ c ≠ '}' := by
  cases j with
  | null =>
    exact ⟨'n', ['u', 'l', 'l'], by simp [printJson], by decide, by decide⟩
  | bool b =>
    cases b with
    | true =>
      exact ⟨'t', ['r', 'u', 'e'], by simp [printJson], by decide, by decide⟩
    | false =>
      exact ⟨'f', ['a', 'l', 's', 'e'],
        by simp [printJson], by decide, by decide⟩
  | num n =>
    by_cases hn : n < 0
    · exact ⟨'-', print_nat n.natAbs,
        by simp [printJson, print_int, hn], by decide, by decide⟩
    · obtain ⟨d, cs, hd, hshape⟩ := print_nat_shape n.natAbs
      obtain ⟨-, -, -, -, -, -, -, h8, h9⟩ := digitChar_not_special d hd
      exact ⟨Nat.digitChar d, cs, by simp [printJson, print_int, hn, hshape], h8, h9⟩
  | str s =>
    exact ⟨'"', escape_chars s.data ++ ['"'], by simp [printJson], by decide, by decide⟩
  | arr es =>
    exact ⟨'[', printElems es ++ [']'], by simp [printJson], by decide, by decide⟩
  | obj fs =>
    exact ⟨'{', printFields fs ++ ['}'], by simp [printJson], by decide, by decide⟩

theorem jsize_pos (j : Json) : 1 ≤ jsize j := by
  cases j <;> simp [jsize]

theorem lsize_pos (j : Json) (js : List Json) : 1 ≤ lsize (j :: js) := by
  simp [lsize]
  omega

theorem fsize_pos (f : String × Json) (fs : List (String × Json)) :
    1 ≤ fsize (f :: fs) := by
  obtain ⟨k, v⟩ := f
  simp [fsize]
  omega

theorem printElems_cons_head (j : Json) (js : List Json) :
    ∃ c cs, printElems (j :: js) = c :: cs ∧ c ≠ ']' ∧ c ≠ '}' := by
  obtain ⟨c, cs, hc, h1, h2⟩ := printJson_head j
  cases js with
  | nil => exact ⟨c, cs, by simp [printElems, hc], h1, h2⟩
  | cons j2 t =>
    exact ⟨c, cs ++ ',' :: printElems (j2 :: t), by simp [printElems, hc], h1, h2⟩

theorem printFields_cons_head (k : String) (v : Json) (fs : List (String × Json)) :
    ∃ cs, printFields ((k, v) :: fs) = '"' :: cs := by
  cases fs with
  | nil => exact ⟨escape_chars k.data ++ ['"', ':'] ++ printJson v,
      by simp [printFields, printField]⟩
  | cons f2 t => exact ⟨escape_chars k.data ++ ['"', ':'] ++ printJson v ++
      ',' :: printFields (f2 :: t), by simp [printFields, printField]⟩

/-- Parsing inverts printing: the mutual induction on fuel. -/
theorem parse_print_fuel (fuel : ℕ) :
    (∀ (j : Json) (rest : List Char), jsize j ≤ fuel → good_rest rest →
        parseValue fuel (printJson j ++ rest) = some (j, rest)) ∧
    (∀ (es : List Json) (rest : List Char), es ≠ [] → lsize es ≤ fuel →
        good_rest rest →
        parseElems fuel (printElems es ++ (']' :: rest)) = some (es, rest)) ∧
    (∀ (fs : List (String × Json)) (rest : List Char), fs ≠ [] → fsize fs ≤ fuel →
        good_rest rest →
        parseFields fuel (printFields fs ++ ('}' :: rest)) = some (fs, rest)) := by
  induction fuel with
  | zero =>
    refine ⟨fun j rest hsz _ => absurd hsz ?_, fun es rest hne hsz _ => ?_,
      fun fs rest hne hsz _ => ?_⟩
    · have := jsize_pos j
      omega
    · cases es with
      | nil => exact absurd rfl hne
      | cons j js => have := lsize_pos j js; omega
    · cases fs with
      | nil => exact absurd rfl hne
      | cons f t => have := fsize_pos f t; omega
  | succ fuel ih =>
    obtain ⟨ihP, ihQ, ihR⟩ := ih
    refine ⟨?_, ?_, ?_⟩
    · -- values
      intro j rest hsz hr
      cases j with
      | null =>
        have hp : printJson Json.null = ['n', 'u', 'l', 'l'] := by
          simp [printJson]
        rw [hp, parseValue.eq_def]
        simp +decide [expectLit]
      | bool b =>
        cases b with
        | true =>
          have hp : printJson (Json.bool true) = ['t', 'r', 'u', 'e'] := by
            simp [printJson]
          rw [hp, parseValue.eq_def]
          simp +decide [expectLit]
        | false =>
          have hp : printJson (Json.bool false) = ['f', 'a', 'l', 's', 'e'] := by
            simp [printJson]
          rw [hp, parseValue.eq_def]
          simp +decide [expectLit]
      | num n =>
        by_cases hn : n < 0
        · have hp : printJson (Json.num n) = '-' :: print_nat n.natAbs := by
            simp [printJson, print_int, hn]
          rw [hp, parseValue.eq_def]
          simp +decide [parseNat_print n.natAbs rest hr]
          rw [abs_of_neg hn, neg_neg]
        · obtain ⟨d, cs, hd, hshape⟩ := print_nat_shape n.natAbs
          obtain ⟨s1, s2, s3, s4, s5, s6, s7, -, -⟩ := digitChar_not_special d hd
          have hp : printJson (Json.num n) = Nat.digitChar d :: cs := by
            simp [printJson, print_int, hn, hshape]
          have hpn := parseNat_print n.natAbs rest hr
          rw [hshape] at hpn
          simp only [List.cons_append] at hpn
          rw [hp, parseValue.eq_def]
          simp +decide [s1, s2, s3, s4, s5, s6, s7, hpn]
          exact not_lt.mp hn
      | str s =>
        have hp : printJson (Json.str s) ++ rest =
            '"' :: (escape_chars s.data ++ ('"' :: rest)) := by
          simp [printJson]
        rw [hp, parseValue.eq_def]
        simp +decide [parseStrChars_escape]
      | arr es =>
        cases es with
        | nil =>
          have hp : printJson (Json.arr []) ++ rest = '[' :: (']' :: rest) := by
            simp [printJson, printElems]
          rw [hp, parseValue.eq_def]
          simp +decide [head_is]
        | cons j js =>
          obtain ⟨c, cs', hpe, hc1, hc2⟩ := printElems_cons_head j js
          have hhead : head_is ']' (printElems (j :: js) ++ (']' :: rest)) = false := by
            rw [hpe]
            simp [head_is, hc1]
          have hsz2 : lsize (j :: js) ≤ fuel := by
            simp only [jsize] at hsz
            omega
          have helems := ihQ (j :: js) rest (by simp) hsz2 hr
          have hp : printJson (Json.arr (j :: js)) ++ rest =
              '[' :: (printElems (j :: js) ++ (']' :: rest)) := by
            simp [printJson]
          rw [hp, parseValue.eq_def]
          simp +decide [hhead, helems]
      | obj fs =>
        cases fs with
        | nil =>
          have hp : printJson (Json.obj []) ++ rest = '{' :: ('}' :: rest) := by
            simp [printJson, printFields]
          rw [hp, parseValue.eq_def]
          simp +decide [head_is]
        | cons f fs' =>
          obtain ⟨k, v⟩ := f
          obtain ⟨cs', hpf⟩ := printFields_cons_head k v fs'
          have hhead : head_is '}' (printFields ((k, v) :: fs') ++ ('}' :: rest)) =
              false := by
            rw [hpf]
            simp +decide [head_is]
          have hsz2 : fsize ((k, v) :: fs') ≤ fuel := by
            simp only [jsize] at hsz
            omega
          have hfields := ihR ((k, v) :: fs') rest (by simp) hsz2 hr
          have hp : printJson (Json.obj ((k, v) :: fs')) ++ rest =
              '{' :: (printFields ((k, v) :: fs') ++ ('}' :: rest)) := by
            simp [printJson]
          rw [hp, parseValue.eq_def]
          simp +decide [hhead, hfields]
    · -- element lists
      intro es rest hne hsz hr
      cases es with
      | nil => exact absurd rfl hne
      | cons j js =>
        cases js with
        | nil =>
          have hj : jsize j ≤ fuel := by
            simp only [lsize] at hsz
            omega
          have hval := ihP j (']' :: rest) hj (good_rest_of_delim _ _ (by decide))
          have hp : printElems [j] ++ (']' :: rest) = printJson j ++ (']' :: rest) := by
            simp [printElems]
          rw [hp, parseElems.eq_def]
          simp +decide [hval]
        | cons j2 t =>
          have hj : jsize j ≤ fuel := by
            simp only [lsize] at hsz
            omega
          have ht : lsize (j2 :: t) ≤ fuel := by
            simp only [lsize] at hsz ⊢
            omega
          have hval := ihP j (',' :: (printElems (j2 :: t) ++ (']' :: rest))) hj
            (good_rest_of_delim _ _ (by decide))
          have htail := ihQ (j2 :: t) rest (by simp) ht hr
          have hp : printElems (j :: j2 :: t) ++ (']' :: rest) =
              printJson j ++ (',' :: (printElems (j2 :: t) ++ (']' :: rest))) := by
            simp [printElems]
          rw [hp, parseElems.eq_def]
          simp +decide [hval, htail]
    · -- field lists
      intro fs rest hne hsz hr
      cases fs with
      | nil => exact absurd rfl hne
      | cons f fs' =>
        obtain ⟨k, v⟩ := f
        cases fs' with
        | nil =>
          have hv : jsize v ≤ fuel := by
            simp only [fsize] at hsz
            omega
          have hval := ihP v ('}' :: rest) hv (good_rest_of_delim _ _ (by decide))
          have hp : printFields [(k, v)] ++ ('}' :: rest) =
              '"' :: (escape_chars k.data ++
                ('"' :: (':' :: (printJson v ++ ('}' :: rest))))) := by
            simp [printFields, printField]
          rw [hp, parseFields.eq_def]
          simp +decide [parseStrChars_escape, hval]
        | cons f2 t =>
          have hv : jsize v ≤ fuel := by
            simp only [fsize] at hsz
            omega
          have ht : fsize (f2 :: t) ≤ fuel := by
            simp only [fsize] at hsz ⊢
            obtain ⟨k2, v2⟩ := f2
            simp only [fsize] at hsz ⊢
            omega
          have hval := ihP v
            (',' :: (printFields (f2 :: t) ++ ('}' :: rest))) hv
            (good_rest_of_delim _ _ (by decide))
          have htail := ihR (f2 :: t) rest (by simp) ht hr
          have hp : printFields ((k, v) :: f2 :: t) ++ ('}' :: rest) =
              '"' :: (escape_chars k.data ++
                ('"' :: (':' :: (printJson v ++
                  (',' :: (printFields (f2 :: t) ++ ('}' :: rest))))))) := by
            simp [printFields, printField]
          rw [hp, parseFields.eq_def]
          simp +decide [parseStrChars_escape, hval, htail]

theorem print_int_length_pos (m : ℤ) : 1 ≤ (print_int m).length := by
  unfold print_int
  split_ifs
  · simp
  · obtain ⟨d, cs, -, hshape⟩ := print_nat_shape m.natAbs
    rw [hshape]
    simp

/-- The parse fuel needed by a value is covered by its printed length. -/
theorem jsize_le_print_bound (n : ℕ) :
    (∀ j, jsize j ≤ n → jsize j ≤ (printJson j).length) ∧
    (∀ es, lsize es ≤ n → lsize es ≤ (printElems es).length + 1) ∧
    (∀ fs, fsize fs ≤ n → fsize fs ≤ (printFields fs).length + 1) := by
  induction n with
  | zero =>
    refine ⟨fun j hsz => absurd hsz ?_, fun es hsz => ?_, fun fs hsz => ?_⟩
    · have := jsize_pos j
      omega
    · cases es with
      | nil => simp [lsize]
      | cons j js => have := lsize_pos j js; omega
    · cases fs with
      | nil => simp [fsize]
      | cons f t => have := fsize_pos f t; omega
  | succ n ih =>
    obtain ⟨ihP, ihQ, ihR⟩ := ih
    refine ⟨?_, ?_, ?_⟩
    · intro j hsz
      cases j with
      | null => simp [jsize, printJson]
      | bool b => cases b <;> simp [jsize, printJson]
      | num m =>
        have := print_int_length_pos m
        simp only [jsize, printJson]
        omega
      | str s => simp [jsize, printJson]
      | arr es =>
        have hes : lsize es ≤ n := by
          simp only [jsize] at hsz
          omega
        have h1 := ihQ es hes
        simp only [jsize, printJson, List.length_cons, List.length_append,
          List.length_singleton]
        omega
      | obj fs =>
        have hfs : fsize fs ≤ n := by
          simp only [jsize] at hsz
          omega
        have h1 := ihR fs hfs
        simp only [jsize, printJson, List.length_cons, List.length_append,
          List.length_singleton]
        omega
    · intro es hsz
      cases es with
      | nil => simp [lsize]
      | cons j js =>
        cases js with
        | nil =>
          have hj : jsize j ≤ n := by
            simp only [lsize] at hsz
            omega
          have h1 := ihP j hj
          simp only [lsize, printElems]
          omega
        | cons j2 t =>
          have hj : jsize j ≤ n := by
            simp only [lsize] at hsz
            omega
          have ht : lsize (j2 :: t) ≤ n := by
            simp only [lsize] at hsz ⊢
            omega
          have h1 := ihP j hj
          have h2 := ihQ (j2 :: t) ht
          simp only [lsize, printElems, List.length_append, List.length_cons] at *
          omega
    · intro fs hsz
      cases fs with
      | nil => simp [fsize]
      | cons f fs' =>
        obtain ⟨k, v⟩ := f
        cases fs' with
        | nil =>
          have hv : jsize v ≤ n := by
            simp only [fsize] at hsz
            omega
          have h1 := ihP v hv
          simp only [fsize, printFields, printField, List.length_cons,
            List.length_append]
          omega
        | cons f2 t =>
          have hv : jsize v ≤ n := by
            simp only [fsize] at hsz
            omega
          have ht : fsize (f2 :: t) ≤ n := by
            obtain ⟨k2, v2⟩ := f2
            simp only [fsize] at hsz ⊢
            omega
          have h1 := ihP v hv
          have h2 := ihR (f2 :: t) ht
          simp only [fsize, printFields, printField, List.length_cons,
            List.length_append] at *
          omega

theorem jsize_le_printJson (j : Json) : jsize j ≤ (printJson j).length :=
  (jsize_le_print_bound (jsize j)).1 j le_rfl

/-- The model's `JSON.parse` inverts the model's `JSON.stringify`: the law
the browser built-ins guarantee for serializable values. -/
theorem JSON_parse_stringify (j : Json) : JSON_parse (JSON_stringify j) = some j := by
  unfold JSON_parse JSON_stringify
  have hfuel : jsize j ≤ (printJson j).length + 1 :=
    le_trans (jsize_le_printJson j) (Nat.le_succ _)
  have h := (parse_print_fuel ((printJson j).length + 1)).1 j [] hfuel good_rest_nil
  rw [List.append_nil] at h
  have hd : (⟨printJson j⟩ : String).data = printJson j := rfl
  rw [hd, h]

/-- `JSON.stringify` never returns the empty string. -/
theorem JSON_stringify_ne_empty (j : Json) : JSON_stringify j ≠ "" := by
  intro he
  have h1 := jsize_le_printJson j
  have h2 := jsize_pos j
  have hlen : (printJson j).length = 0 := by
    have hz : String.length (JSON_stringify j) = 0 := by rw [he]; rfl
    exact hz
  omega

/-! ### The authentication helper (`frontend/js/auth.js`)

`localStorage` is modelled as a string-keyed partial map of strings; the
`Auth` object's methods are translated one-for-one. -/

/-- The browser `localStorage` visible to `auth.js`. -/
def Storage := String → Option String

/-- `localStorage.setItem(key, value)`. -/
def Storage.setItem (st : Storage) (key value : String) : Storage :=
  fun k => if k = key then some value else st k

/-- `localStorage.getItem(key)` (`null` becomes `none`). -/
def Storage.getItem (st : Storage) (key : String) : Option String := st key

/-- `localStorage.removeItem(key)`. -/
def Storage.removeItem (st : Storage) (key : String) : Storage :=
  fun k => if k = key then none else st k

/-- `Auth.setAuth(token, user, userType)`: stores the token, the
JSON-stringified user and the user type. -/
def Auth.setAuth (st : Storage) (token : String) (user : Json)
    (userType : String) : Storage :=
  ((st.setItem "token" token).setItem "user" (JSON_stringify user)).setItem
    "userType" userType

/-- `Auth.getToken()`. -/
def Auth.getToken (st : Storage) : Option String := st.getItem "token"

/-- `Auth.getUser()`: `user ? JSON.parse(user) : null` (a JS string is
truthy when non-empty; a parse failure is modelled as `none`). -/
def Auth.getUser (st : Storage) : Option Json :=
  match st.getItem "user" with
  | none => none
  | some u => if u = "" then none else JSON_parse u

/-- `Auth.getUserType()`. -/
def Auth.getUserType (st : Storage) : Option String := st.getItem "userType"

/-- `Auth.isAuthenticated()`: `!!this.getToken()` (a missing or empty
token is falsy). -/
def Auth.isAuthenticated (st : Storage) : Bool :=
  match Auth.getToken st with
  | none => false
  | some t => t ≠ ""

/-- `Auth.logout()`: removes all three keys. -/
def Auth.logout (st : Storage) : Storage :=
  ((st.removeItem "token").removeItem "user").removeItem "userType"

/-- C9: after `setAuth` the three getters return the stored token, a
structurally equal copy of the user and the user type, and
`isAuthenticated` is true for a non-empty token; after `logout` all three
getters return null and `isAuthenticated` is false. -/
theorem auth_roundtrip :
    (∀ (st : Storage) (token : String) (user : Json) (userType : String),
        Auth.getToken (Auth.setAuth st token user userType) = some token ∧
        Auth.getUser (Auth.setAuth st token user userType) = some user ∧
        Auth.getUserType (Auth.setAuth st token user userType) = some userType ∧
        (token ≠ "" →
          Auth.isAuthenticated (Auth.setAuth st token user userType) = true)) ∧
    (∀ st : Storage,
        Auth.getToken (Auth.logout st) = none ∧
        Auth.getUser (Auth.logout st) = none ∧
        Auth.getUserType (Auth.logout st) = none ∧
        Auth.isAuthenticated (Auth.logout st) = false) := by
  constructor
  · intro st token user userType
    have htok : Auth.getToken (Auth.setAuth st token user userType) = some token := by
      simp +decide [Auth.getToken, Auth.setAuth, Storage.getItem, Storage.setItem]
    refine ⟨htok, ?_, ?_, ?_⟩
    · have hu : Storage.getItem (Auth.setAuth st token user userType) "user" =
          some (JSON_stringify user) := by
        simp +decide [Auth.setAuth, Storage.getItem, Storage.setItem]
      simp only [Auth.getUser, hu, if_neg (JSON_stringify_ne_empty user)]
      exact JSON_parse_stringify user
    · simp +decide [Auth.getUserType, Auth.setAuth, Storage.getItem, Storage.setItem]
    · intro hne
      simp only [Auth.isAuthenticated, htok]
      simp [hne]
  · intro st
    have htok : Auth.getToken (Auth.logout st) = none := by
      simp +decide [Auth.getToken, Auth.logout, Storage.getItem, Storage.removeItem]
    refine ⟨htok, ?_, ?_, ?_⟩
    · have hu : Storage.getItem (Auth.logout st) "user" = none := by
        simp +decide [Auth.logout, Storage.getItem, Storage.removeItem]
      simp [Auth.getUser, hu]
    · simp +decide [Auth.getUserType, Auth.logout, Storage.getItem, Storage.removeItem]
    · simp [Auth.isAuthenticated, htok]

/-- Witness for C9 at a concrete token, user object and empty store. -/
theorem auth_roundtrip_witness :
    Auth.getToken (Auth.setAuth (fun _ => none) "tok"
        (Json.obj [("name", Json.str "Lakshmi"), ("id", Json.num 7)]) "artisan") =
      some "tok" ∧
    Auth.getUser (Auth.setAuth (fun _ => none) "tok"
        (Json.obj [("name", Json.str "Lakshmi"), ("id", Json.num 7)]) "artisan") =
      some (Json.obj [("name", Json.str "Lakshmi"), ("id", Json.num 7)]) ∧
    Auth.getUserType (Auth.setAuth (fun _ => none) "tok"
        (Json.obj [("name", Json.str "Lakshmi"), ("id", Json.num 7)]) "artisan") =
      some "artisan" ∧
    Auth.isAuthenticated (Auth.setAuth (fun _ => none) "tok"
        (Json.obj [("name", Json.str "Lakshmi"), ("id", Json.num 7)]) "artisan") =
      true ∧
    Auth.getToken (Auth.logout (fun _ => none)) = none ∧
    Auth.isAuthenticated (Auth.logout (fun _ => none)) = false := by
  obtain ⟨h1, h2, h3, h4⟩ := auth_roundtrip.1 (fun _ => none) "tok"
    (Json.obj [("name", Json.str "Lakshmi"), ("id", Json.num 7)]) "artisan"
  obtain ⟨h5, -, -, h6⟩ := auth_roundtrip.2 (fun _ => none)
  exact ⟨h1, h2, h3, h4 (by decide), h5, h6⟩

/-! ### The request helper (`frontend/js/api.js`)

`ProductAPI.list(filters)` builds a `URLSearchParams` query by appending
each truthy filter in source order and requests
`/products/` + (queryString ? `?` + queryString : ``). -/

/-- The filter object passed to `ProductAPI.list` (absent fields are
`none`). -/
structure Filters where
  material : Option String
  min_price : Option ℤ
  max_price : Option ℤ
  verified_only : Option Bool

/-- JS truthiness of an optional string: present and non-empty. -/
def truthy_str : Option String → Bool
  | none => false
  | some s => s ≠ ""

/-- JS truthiness of an optional number: present and non-zero
(`min_price = 0` is falsy and omitted). -/
def truthy_int : Option ℤ → Bool
  | none => false
  | some n => n ≠ 0

/-- JS truthiness of an optional boolean. -/
def truthy_bool : Option Bool → Bool
  | none => false
  | some b => b

/-- `URLSearchParams`: an ordered key/value list (percent-encoding elided;
the demo's filter values are plain text and numbers). -/
structure URLSearchParams where
  pairs : List (String × String)

/-- `params.append(key, value)`. -/
def URLSearchParams.append (p : URLSearchParams) (key value : String) :
    URLSearchParams :=
  ⟨p.pairs ++ [(key, value)]⟩

/-- `&`-joining of rendered pairs. -/
def joinAmp : List String → String
  | [] => ""
  | [x] => x
  | x :: y :: rest => x ++ "&" ++ joinAmp (y :: rest)

/-- `params.toString()`: `key=value` pairs joined with `&`. -/
def URLSearchParams.render (p : URLSearchParams) : String :=
  joinAmp (p.pairs.map (fun kv => kv.1 ++ "=" ++ kv.2))

/-- Decimal rendering of an integer filter value. -/
def int_str (n : ℤ) : String := toString n

/-- `ProductAPI.list(filters)`: the endpoint string passed to
`apiRequest`.  Each `if (filters.x) params.append('x', ...)` is modelled
with the corresponding truthiness test; `verified_only` appends the
literal string `'true'` as in the source. -/
def ProductAPI_list_endpoint (f : Filters) : String :=
  let params : URLSearchParams := ⟨[]⟩
  let params := if truthy_str f.material then
    params.append "material" (f.material.getD "") else params
  let params := if truthy_int f.min_price then
    params.append "min_price" (int_str (f.min_price.getD 0)) else params
  let params := if truthy_int f.max_price then
    params.append "max_price" (int_str (f.max_price.getD 0)) else params
  let params := if truthy_bool f.verified_only then
    params.append "verified_only" "true" else params
  let queryString := params.render
  "/products/" ++ (if queryString = "" then "" else "?" ++ queryString)

/-- C10's specified behavior, stated from the claim's words: the path is
`/products/` with no query string when no filter is truthy, and otherwise
`?` followed by exactly the truthy filters as query parameters in the
fixed order material, min_price, max_price, verified_only. -/
def ProductAPI_list_endpoint_spec (f : Filters) : String :=
  let qs : List String :=
    (if truthy_str f.material then ["material=" ++ f.material.getD ""] else []) ++
    (if truthy_int f.min_price then
      ["min_price=" ++ int_str (f.min_price.getD 0)] else []) ++
    (if truthy_int f.max_price then
      ["max_price=" ++ int_str (f.max_price.getD 0)] else []) ++
    (if truthy_bool f.verified_only then ["verified_only=true"] else [])
  if qs = [] then "/products/" else "/products/?" ++ joinAmp qs

theorem joinAmp_nil : joinAmp [] = "" := rfl

theorem joinAmp_cons_ne_empty (x : String) (rest : List String) (hx : x ≠ "") :
    joinAmp (x :: rest) ≠ "" := by
  cases rest with
  | nil => simpa [joinAmp] using hx
  | cons y t =>
    show x ++ "&" ++ joinAmp (y :: t) ≠ ""
    exact str_append_ne_empty_left _ _ (str_append_ne_empty_left _ _ hx)

theorem joinAmp_material_ne (v : String) (rest : List String) :
    ¬ (joinAmp (("material=" ++ v) :: rest) = "") :=
  joinAmp_cons_ne_empty _ _ (str_append_ne_empty_left _ _ (by decide))

theorem joinAmp_min_price_ne (v : String) (rest : List String) :
    ¬ (joinAmp (("min_price=" ++ v) :: rest) = "") :=
  joinAmp_cons_ne_empty _ _ (str_append_ne_empty_left _ _ (by decide))

theorem joinAmp_max_price_ne (v : String) (rest : List String) :
    ¬ (joinAmp (("max_price=" ++ v) :: rest) = "") :=
  joinAmp_cons_ne_empty _ _ (str_append_ne_empty_left _ _ (by decide))

theorem joinAmp_verified_ne (rest : List String) :
    ¬ (joinAmp ("verified_only=true" :: rest) = "") :=
  joinAmp_cons_ne_empty _ _ (by decide)

theorem products_query_merge (q : String) :
    "/products/" ++ ("?" ++ q) = "/products/?" ++ q := by
  apply String.ext
  simp only [String.data_append]
  rw [← List.append_assoc]
  congr 1

theorem products_empty_query : ("/products/" : String) ++ "" = "/products/" := by
  decide

/-- C10: `ProductAPI.list` requests `/products/` with no query string when
no filter is truthy, and otherwise appends `?` and exactly the truthy
filters in the fixed source order (falsy values such as `min_price = 0`
are omitted). -/
theorem productAPI_list_query (f : Filters) :
    ProductAPI_list_endpoint f = ProductAPI_list_endpoint_spec f := by
  obtain ⟨m, mn, mx, vo⟩ := f
  have e1 : ("material" : String) ++ "=" = "material=" := by decide
  have e2 : ("min_price" : String) ++ "=" = "min_price=" := by decide
  have e3 : ("max_price" : String) ++ "=" = "max_price=" := by decide
  have e4 : ("verified_only" : String) ++ "=" ++ "true" = "verified_only=true" := by
    decide
  by_cases h1 : truthy_str m <;> by_cases h2 : truthy_int mn <;>
    by_cases h3 : truthy_int mx <;> by_cases h4 : truthy_bool vo <;>
    simp +decide [ProductAPI_list_endpoint, ProductAPI_list_endpoint_spec,
      URLSearchParams.append, URLSearchParams.render, joinAmp_nil, h1, h2, h3, h4,
      e1, e2, e3, e4, joinAmp_material_ne, joinAmp_min_price_ne,
      joinAmp_max_price_ne, joinAmp_verified_ne, products_query_merge,
      products_empty_query]

end ThreadsOfTradition
